import Mathlib

/-!
Verification of the mcpx synchronization engine (JNK234/mcp-multiverse).

This file gives a shallow embedding, in Lean 4, of the parts of the Python
source that the verified properties are about: the server data model
(`src/mcpx/models.py`), the merge algorithm and sync orchestration
(`src/mcpx/sync.py`), the validator and the stdio health check
(`src/mcpx/utils/validation.py`), the backup retention manager
(`src/mcpx/utils/backup.py`), and the platform adapters
(`src/mcpx/platforms/*.py`).

Modelling conventions:
* Python dicts are association lists `List (String × α)` with unique keys,
  looked up by `List.lookup`; dict assignment replaces in place or appends.
* JSON / TOML files are modelled at the parsed-value level (`JSON` below):
  text serialization (indentation, `sort_keys`, escaping) and reparsing are
  below this model, which is sound for the lookup-based properties proved
  here since dict equality in Python is order-insensitive.
* External effects (filesystem, `shutil.which`, `os.environ`, `urlparse`,
  subprocesses) are parameters of the embedded functions; a Python
  exception that a function propagates is an `Except.error`.
* Machine behaviour that the claims quantify over (whether a spawned
  process answers, times out or errors) is an explicit parameter, and the
  process-management calls the code performs are returned as a trace.
-/

/-! ## Python string primitives -/

/-- Strict code-point comparison of one character against another,
as Python compares characters inside string comparison. -/
def charLtB (a b : Char) : Bool := a.toNat < b.toNat

/-- Python string `<` on the underlying character lists
(lexicographic by code point). -/
def charsLt : List Char → List Char → Bool
  | [], [] => false
  | [], _ :: _ => true
  | _ :: _, [] => false
  | a :: as, b :: bs =>
      if charLtB a b then true
      else if charLtB b a then false
      else charsLt as bs

/-- Python string `<`. -/
def strLtB (a b : String) : Bool := charsLt a.data b.data

/-- Python truthiness of an `Optional[str]`: `None` and `""` are falsy. -/
def strTruthy : Option String → Bool
  | none => false
  | some s => !(s == "")

/-! ## JSON values (also used for the parsed form of TOML files) -/

/-- A parsed JSON (or TOML) value.  Objects keep their key order, as Python
dicts do. -/
inductive JSON where
  | str (s : String)
  | num (n : Int)
  | jbool (b : Bool)
  | null
  | arr (xs : List JSON)
  | obj (fields : List (String × JSON))
  deriving Repr

/-- `d.get(k)` on an object's field list. -/
def jlookup (fields : List (String × JSON)) (k : String) : Option JSON :=
  fields.lookup k

/-- Python dict assignment `d[k] = v`: replace the existing binding in
place, else append a new one. -/
def objSet : List (String × JSON) → String → JSON → List (String × JSON)
  | [], k, v => [(k, v)]
  | (k', v') :: rest, k, v =>
      if k' = k then (k, v) :: rest else (k', v') :: objSet rest k v

/-! ## Server model (`models.py`) -/

/-- `MCPServer` frozen dataclass from `models.py`.  `env` and `headers` are
dicts of strings; `type` is `"stdio"` or `"http"` (kept as a string, as in
the source). -/
structure MCPServer where
  name : String
  type : String
  command : Option String := none
  args : List String := []
  env : List (String × String) := []
  url : Option String := none
  headers : List (String × String) := []
  deriving Repr, DecidableEq

/-- `Config` from `models.py`: version plus the named server dict. -/
structure Config where
  version : String
  servers : List (String × MCPServer)
  deriving Repr

/-! ## Merge algorithm (`sync.py`, `merge_servers`) -/

/-- `name in d` for a server dict. -/
def keyMem (k : String) (l : List (String × MCPServer)) : Bool :=
  (l.lookup k).isSome

/-- `merge_servers(managed, existing)` from `sync.py`: a fresh dict seeded
with `managed`, then every entry of `existing` whose name is not a key of
`managed` (an orphan) is added.  Orphan iteration order does not affect the
resulting dict's lookups or key set, which is all the claims mention. -/
def merge_servers (managed existing : List (String × MCPServer)) :
    List (String × MCPServer) :=
  managed ++ existing.filter (fun p => !keyMem p.1 managed)

/-! ### Lookup lemmas for association lists -/

theorem lookup_append_of_some {α : Type} (l₁ l₂ : List (String × α)) (k : String) (v : α)
    (h : l₁.lookup k = some v) : (l₁ ++ l₂).lookup k = some v := by
  induction l₁ with
  | nil => simp [List.lookup] at h
  | cons a rest ih =>
      simp only [List.lookup, List.cons_append] at h ⊢
      cases hbe : (k == a.1) with
      | true => simpa [hbe] using (by simpa [hbe] using h)
      | false =>
          simp only [hbe] at h ⊢
          exact ih h

theorem lookup_append_of_none {α : Type} (l₁ l₂ : List (String × α)) (k : String)
    (h : l₁.lookup k = none) : (l₁ ++ l₂).lookup k = l₂.lookup k := by
  induction l₁ with
  | nil => simp
  | cons a rest ih =>
      simp only [List.lookup, List.cons_append] at h ⊢
      cases hbe : (k == a.1) with
      | true => simp [hbe] at h
      | false =>
          simp only [hbe] at h ⊢
          exact ih h

theorem lookup_filter_key_free (l : List (String × MCPServer))
    (pred : String × MCPServer → Bool) (k : String)
    (hkeep : ∀ v : MCPServer, pred (k, v) = true) :
    (l.filter pred).lookup k = l.lookup k := by
  induction l with
  | nil => simp
  | cons a rest ih =>
      by_cases hk : k = a.1
      · have : pred a = true := by
          have h2 := hkeep a.2
          rw [hk] at h2
          simpa using h2
        simp [List.filter_cons, this, List.lookup, hk]
      · have hbe : (k == a.1) = false := by
          simp [hk]
        cases hp : pred a with
        | true => simp [List.filter_cons, hp, List.lookup, hbe, ih]
        | false => simp [List.filter_cons, hp, List.lookup, hbe, ih]

/-- C1: `merge_servers` is override-by-name.  Its value at every key of
`managed` is the `managed` value; at every key of `existing` that is not a
key of `managed` it is the `existing` value; and its key set is exactly the
union of the two key sets. -/
theorem merge_servers_override_by_name
    (managed existing : List (String × MCPServer)) :
    (∀ k v, managed.lookup k = some v →
        (merge_servers managed existing).lookup k = some v) ∧
    (∀ k v, managed.lookup k = none → existing.lookup k = some v →
        (merge_servers managed existing).lookup k = some v) ∧
    (∀ k, ((merge_servers managed existing).lookup k).isSome ↔
        ((managed.lookup k).isSome ∨ (existing.lookup k).isSome)) := by
  refine ⟨?_, ?_, ?_⟩
  · intro k v h
    exact lookup_append_of_some _ _ _ _ h
  · intro k v hm he
    have hfil : ((existing.filter (fun p => !keyMem p.1 managed)).lookup k)
        = existing.lookup k := by
      apply lookup_filter_key_free
      intro w
      simp [keyMem, hm]
    unfold merge_servers
    rw [lookup_append_of_none _ _ _ hm, hfil, he]
  · intro k
    cases hm : managed.lookup k with
    | some v =>
        constructor
        · intro _; exact Or.inl (by simp [hm])
        · intro _
          have := lookup_append_of_some managed
            (existing.filter (fun p => !keyMem p.1 managed)) k v hm
          simp [merge_servers, this]
    | none =>
        have hfil : ((existing.filter (fun p => !keyMem p.1 managed)).lookup k)
            = existing.lookup k := by
          apply lookup_filter_key_free
          intro w
          simp [keyMem, hm]
        constructor
        · intro hsome
          refine Or.inr ?_
          unfold merge_servers at hsome
          rw [lookup_append_of_none _ _ _ hm, hfil] at hsome
          exact hsome
        · intro hor
          rcases hor with h | h
          · simp [hm] at h
          · unfold merge_servers
            rw [lookup_append_of_none _ _ _ hm, hfil]
            exact h

/-- Witness for `merge_servers_override_by_name` at a concrete input. -/
theorem merge_servers_override_by_name_witness :
    ([( "a", ({ name := "a", type := "stdio", command := some "npx" } : MCPServer))].lookup "a"
        = some { name := "a", type := "stdio", command := some "npx" }) ∧
    (merge_servers
        [("a", { name := "a", type := "stdio", command := some "npx" })]
        [("a", { name := "a", type := "stdio", command := some "old" }),
         ("b", { name := "b", type := "stdio", command := some "npx" })]).lookup "a"
      = some { name := "a", type := "stdio", command := some "npx" } := by
  refine ⟨by decide, ?_⟩
  exact (merge_servers_override_by_name
      [("a", { name := "a", type := "stdio", command := some "npx" })]
      [("a", { name := "a", type := "stdio", command := some "old" }),
       ("b", { name := "b", type := "stdio", command := some "npx" })]).1
    "a" _ (by decide)

/-! ## Validator (`utils/validation.py`) -/

/-- `ValidationError` frozen dataclass. -/
structure ValidationError where
  server_name : String
  message : String
  severity : String
  deriving Repr, DecidableEq

/-- External system state the validator consults: `shutil.which`,
`os.environ` and `urllib.parse.urlparse` (all outside the repository). -/
structure SysEnv where
  whichFound : String → Bool
  envHas : String → Bool
  envGet : String → Option String
  urlScheme : String → String
  urlNetloc : String → String

/-- First character class of the `${VAR}` pattern: `[A-Z_]`. -/
def isVarStart (c : Char) : Bool :=
  (65 ≤ c.toNat && c.toNat ≤ 90) || c = '_'

/-- Continuation class of the `${VAR}` pattern: `[A-Z0-9_]`. -/
def isVarCont (c : Char) : Bool :=
  isVarStart c || (48 ≤ c.toNat && c.toNat ≤ 57)

/-- One step of `re.finditer` for the pattern matching a dollar sign, an
open brace, `[A-Z_][A-Z0-9_]*` and a close brace: scan left to right,
emitting each non-overlapping match's variable name.  Fuel bounds the
recursion by the character count. -/
def scanRefsAux : Nat → List Char → List String
  | 0, _ => []
  | _ + 1, [] => []
  | fuel + 1, c :: cs =>
      if c = '$' then
        match cs with
        | '{' :: d :: ds =>
            if isVarStart d then
              match ds.dropWhile isVarCont with
              | '}' :: rest =>
                  String.mk (d :: ds.takeWhile isVarCont) :: scanRefsAux fuel rest
              | _ => scanRefsAux fuel cs
            else scanRefsAux fuel cs
        | _ => scanRefsAux fuel cs
      else scanRefsAux fuel cs

/-- All `${VAR}` references a string holds, in order. -/
def scanEnvRefs (s : String) : List String :=
  scanRefsAux s.data.length s.data

/-- `validate_command_exists` from `validation.py`. -/
def validate_command_exists (sys : SysEnv) (command : String) :
    Option ValidationError :=
  if sys.whichFound command then none
  else some { server_name := ""
              message := "Command not found: " ++ command
              severity := "error" }

/-- `validate_url` from `validation.py`.  `urlparse` does not raise on any
string input here, so the `except` arm of the source is not reachable in
this model. -/
def validate_url (sys : SysEnv) (url : String) : Option ValidationError :=
  if ¬ (sys.urlScheme url = "http" ∨ sys.urlScheme url = "https") then
    some { server_name := ""
           message := "URL must use HTTP or HTTPS scheme: " ++ url
           severity := "error" }
  else if sys.urlNetloc url = "" then
    some { server_name := ""
           message := "URL missing host/domain: " ++ url
           severity := "error" }
  else none

/-- The unset-variable warning scan the validator applies to one string
field, labelled with where the reference was found. -/
def warnRefs (sys : SysEnv) (serverName text fieldLabel : String) :
    List ValidationError :=
  (scanEnvRefs text).filterMap (fun v =>
    if sys.envHas v then none
    else some { server_name := serverName
                message := "Environment variable '$" ++ v ++
                  "' not set (referenced in " ++ fieldLabel ++ ")"
                severity := "warning" })

/-- `validate_server` from `validation.py`.  For stdio servers with a
truthy command: command existence plus the warning scan over command, args
and env values; for http servers with a truthy url: URL validation plus
the warning scan over url and header values; every other case falls
through to the empty list. -/
def validate_server (sys : SysEnv) (server : MCPServer) :
    List ValidationError :=
  if server.type = "stdio" then
    match server.command with
    | none => []
    | some cmd =>
        if cmd = "" then []
        else
          (match validate_command_exists sys cmd with
            | some e => [{ server_name := server.name
                           message := e.message
                           severity := e.severity }]
            | none => [])
          ++ warnRefs sys server.name cmd "command"
          ++ server.args.flatMap (fun a => warnRefs sys server.name a "args")
          ++ server.env.flatMap
              (fun kv => warnRefs sys server.name kv.2 ("env." ++ kv.1))
  else if server.type = "http" then
    match server.url with
    | none => []
    | some u =>
        if u = "" then []
        else
          (match validate_url sys u with
            | some e => [{ server_name := server.name
                           message := e.message
                           severity := e.severity }]
            | none => [])
          ++ warnRefs sys server.name u "url"
          ++ server.headers.flatMap
              (fun kv => warnRefs sys server.name kv.2 ("headers." ++ kv.1))
  else []

/-- C10: a stdio server whose command is `None` or empty, and an http
server whose url is `None` or empty, produce no validation results at
all — the missing required field is never flagged by `validate_server`. -/
theorem validate_server_missing_required_field_unflagged
    (sys : SysEnv) (server : MCPServer) :
    (server.type = "stdio" →
      (server.command = none ∨ server.command = some "") →
      validate_server sys server = []) ∧
    (server.type = "http" →
      (server.url = none ∨ server.url = some "") →
      validate_server sys server = []) := by
  constructor
  · intro htype hcmd
    rcases hcmd with h | h <;> simp [validate_server, htype, h]
  · intro htype hurl
    have hns : ¬ server.type = "stdio" → True := fun _ => trivial
    rcases hurl with h | h <;>
      · by_cases hs : server.type = "stdio"
        · rw [htype] at hs; exact absurd hs.symm (by decide)
        · simp [validate_server, hs, htype, h]

/-- Witness for `validate_server_missing_required_field_unflagged`:
a concrete stdio server with an empty command and a concrete http server
with no url. -/
theorem validate_server_missing_required_field_unflagged_witness :
    (validate_server
        ⟨fun _ => false, fun _ => false, fun _ => none, fun _ => "", fun _ => ""⟩
        { name := "s", type := "stdio", command := some "" } = []) ∧
    (validate_server
        ⟨fun _ => false, fun _ => false, fun _ => none, fun _ => "", fun _ => ""⟩
        { name := "h", type := "http", url := none } = []) :=
  ⟨(validate_server_missing_required_field_unflagged _ _).1 rfl (Or.inr rfl),
   (validate_server_missing_required_field_unflagged _ _).2 rfl (Or.inl rfl)⟩

/-! ## Python `str()` rendering of JSON-like values

Used where the source interpolates a parsed value into a message
(f-strings, `str(error)`).  Faithful on strings (`str` of a Python string
is itself); container rendering follows Python's `repr`-inside-`str`
convention. -/

mutual

/-- Python `repr` of a parsed value. -/
def pyReprJ : JSON → String
  | .str s => "'" ++ s ++ "'"
  | .num n => toString n
  | .jbool b => if b then "True" else "False"
  | .null => "None"
  | .arr xs => "[" ++ pyReprList xs ++ "]"
  | .obj fs => "\x7b" ++ pyReprFields fs ++ "\x7d"

/-- Comma-joined `repr` of a list's elements. -/
def pyReprList : List JSON → String
  | [] => ""
  | [x] => pyReprJ x
  | x :: y :: xs => pyReprJ x ++ ", " ++ pyReprList (y :: xs)

/-- Comma-joined `repr` of a dict's items. -/
def pyReprFields : List (String × JSON) → String
  | [] => ""
  | [(k, v)] => "'" ++ k ++ "': " ++ pyReprJ v
  | (k, v) :: f :: fs => "'" ++ k ++ "': " ++ pyReprJ v ++ ", " ++ pyReprFields (f :: fs)

end

/-- Python `str()` of a parsed value: a string renders as itself, anything
else as its `repr`. -/
def pyStr : JSON → String
  | .str s => s
  | j => pyReprJ j

/-! ## Platform adapter translation (`platforms/base.py`) -/

/-- A Python `Optional[str]` as a JSON value (`None` becomes `null`). -/
def jsonOfOptStr : Option String → JSON
  | none => JSON.null
  | some s => JSON.str s

/-- Python `x == "lit"` where `x` is a parsed value: true only for an
equal string. -/
def jIsStr (j : JSON) (s : String) : Bool :=
  match j with
  | .str t => t == s
  | _ => false

/-- Decode a JSON value as a string.  `none` marks a value outside the
typed server model (Python, untyped, would store it unchanged; no on-disk
file the claims mention holds one). -/
def jDecodeStr : JSON → Option String
  | .str s => some s
  | _ => none

/-- Decode a JSON value as an optional string (`null` is `None`). -/
def jDecodeOptStr : JSON → Option (Option String)
  | .str s => some (some s)
  | .null => some none
  | _ => none

/-- Left-to-right traversal in `Option`, total on success. -/
def optTraverse {α β : Type} (f : α → Option β) : List α → Option (List β)
  | [] => some []
  | a :: rest =>
      match f a with
      | none => none
      | some b => (optTraverse f rest).map (fun bs => b :: bs)

/-- Decode a JSON array of strings. -/
def jDecodeStrList : JSON → Option (List String)
  | .arr xs => optTraverse jDecodeStr xs
  | _ => none

/-- Decode a JSON object with string values. -/
def jDecodeStrMap : JSON → Option (List (String × String))
  | .obj fs => optTraverse (fun kv => (jDecodeStr kv.2).map (fun v => (kv.1, v))) fs
  | _ => none

/-- `server_to_dict` from `base.py`: the platform dict for one server.
Stdio: `type`, `command`, `args` always, `env` only when non-empty.
Http: `type` always, `url` only when truthy, `headers` only when
non-empty. -/
def server_to_dict (server : MCPServer) : List (String × JSON) :=
  [("type", JSON.str server.type)]
  ++ (if server.type = "stdio" then
        [("command", jsonOfOptStr server.command),
         ("args", JSON.arr (server.args.map JSON.str))]
        ++ (if server.env = [] then []
            else [("env", JSON.obj (server.env.map (fun kv => (kv.1, JSON.str kv.2))))])
      else if server.type = "http" then
        (if strTruthy server.url then [("url", JSON.str (server.url.getD ""))] else [])
        ++ (if server.headers = [] then []
            else [("headers",
                   JSON.obj (server.headers.map (fun kv => (kv.1, JSON.str kv.2))))])
      else [])

/-- `dict_to_server` from `base.py`.  The `type` key defaults to
`"stdio"`; a stdio entry without `command`, an http entry without `url`,
or an entry with any other `type` raises `ValueError` (here:
`Except.error` with the source's message). -/
def dict_to_server (name : String) (data : List (String × JSON)) :
    Except String MCPServer :=
  let server_type := (jlookup data "type").getD (JSON.str "stdio")
  if jIsStr server_type "stdio" then
    match jlookup data "command" with
    | none => .error ("Server '" ++ name ++ "' missing required 'command' field")
    | some cmdJ =>
        match jDecodeOptStr cmdJ,
              jDecodeStrList ((jlookup data "args").getD (JSON.arr [])),
              jDecodeStrMap ((jlookup data "env").getD (JSON.obj [])) with
        | some cmd, some args, some env =>
            .ok { name := name, type := "stdio", command := cmd
                  args := args, env := env }
        | _, _, _ =>
            .error ("Server '" ++ name ++ "' holds a value outside the typed model")
  else if jIsStr server_type "http" then
    match jlookup data "url" with
    | none => .error ("Server '" ++ name ++ "' missing required 'url' field for http type")
    | some urlJ =>
        match jDecodeOptStr urlJ,
              jDecodeStrMap ((jlookup data "headers").getD (JSON.obj [])) with
        | some url, some headers =>
            .ok { name := name, type := "http", url := url, headers := headers }
        | _, _ =>
            .error ("Server '" ++ name ++ "' holds a value outside the typed model")
  else
    .error ("Server '" ++ name ++ "' has invalid type '" ++ pyStr server_type ++
            "'. Must be 'stdio' or 'http'.")

/-! ## JSON platform adapters (`claude.py`, `gemini.py`, `kilo.py`, and
the registry's `roo.py` / `cline.py`)

A config file is its parsed top-level object, `none` when the file does
not exist. -/

/-- One entry of a tool's server section: the value must itself be an
object (Python would raise on anything else), decoded by
`dict_to_server`. -/
def decodeEntry (kv : String × JSON) : Except String (String × MCPServer) :=
  match kv.2 with
  | .obj sfs => (dict_to_server kv.1 sfs).map (fun s => (kv.1, s))
  | _ => .error ("Server '" ++ kv.1 ++ "' entry is not an object")

/-- The dict-comprehension shared by every JSON adapter's `load`: decode
each entry of the tool's server section, propagating the first failure
(the comprehension does not catch the `ValueError`). -/
def exceptTraverse {α β : Type} (f : α → Except String β) :
    List α → Except String (List β)
  | [] => .ok []
  | a :: rest =>
      match f a with
      | .error e => .error e
      | .ok b => (exceptTraverse f rest).map (fun bs => b :: bs)

def loadServersFrom (data : List (String × JSON)) (key : String) :
    Except String (List (String × MCPServer)) :=
  match (jlookup data key).getD (JSON.obj []) with
  | .obj entries => exceptTraverse decodeEntry entries
  | _ => .error ("the '" ++ key ++ "' section is not an object")

/-- `ClaudeAdapter.load`: empty dict when the file is absent, else the
decoded `mcpServers` section. -/
def claudeLoad (file : Option (List (String × JSON))) :
    Except String (List (String × MCPServer)) :=
  match file with
  | none => .ok []
  | some data => loadServersFrom data "mcpServers"

/-- `ClaudeAdapter.save`: re-read the existing file (empty when absent),
replace only the `mcpServers` key, keep every other top-level key. -/
def claudeSave (file : Option (List (String × JSON)))
    (servers : List (String × MCPServer)) : List (String × JSON) :=
  objSet (file.getD []) "mcpServers"
    (JSON.obj (servers.map (fun kv => (kv.1, JSON.obj (server_to_dict kv.2)))))

/-- `GeminiAdapter.load` (same shape as Claude's). -/
def geminiLoad (file : Option (List (String × JSON))) :
    Except String (List (String × MCPServer)) :=
  match file with
  | none => .ok []
  | some data => loadServersFrom data "mcpServers"

/-- `GeminiAdapter.save` (same shape as Claude's). -/
def geminiSave (file : Option (List (String × JSON)))
    (servers : List (String × MCPServer)) : List (String × JSON) :=
  objSet (file.getD []) "mcpServers"
    (JSON.obj (servers.map (fun kv => (kv.1, JSON.obj (server_to_dict kv.2)))))

/-- `KiloAdapter.save`'s per-server dict: the shared translation plus the
VS Code-mandated `disabled` and `alwaysAllow` defaults. -/
def kiloServerDict (server : MCPServer) : List (String × JSON) :=
  server_to_dict server ++
    [("disabled", JSON.jbool false), ("alwaysAllow", JSON.arr [])]

/-- `KiloAdapter.load` (the `mcpServers` key, like Claude's). -/
def kiloLoad (file : Option (List (String × JSON))) :
    Except String (List (String × MCPServer)) :=
  match file with
  | none => .ok []
  | some data => loadServersFrom data "mcpServers"

/-- `KiloAdapter.save`: preserves unrelated keys and adds the VS Code
defaults to each entry. -/
def kiloSave (file : Option (List (String × JSON)))
    (servers : List (String × MCPServer)) : List (String × JSON) :=
  objSet (file.getD []) "mcpServers"
    (JSON.obj (servers.map (fun kv => (kv.1, JSON.obj (kiloServerDict kv.2)))))

/-- Modelled from the spec: `RooAdapter.load` — `platforms/roo.py` is not
among the staged source files (only the registry in
`platforms/__init__.py` and its tests reference it).  Per spec §4.3 it is
a VS Code JSON adapter with the same `mcpServers` section shape as
Kilo. -/
def rooLoad (file : Option (List (String × JSON))) :
    Except String (List (String × MCPServer)) :=
  match file with
  | none => .ok []
  | some data => loadServersFrom data "mcpServers"

/-- Modelled from the spec: `RooAdapter.save` — like Kilo's, it replaces
only `mcpServers` and adds the `disabled` / `alwaysAllow` defaults. -/
def rooSave (file : Option (List (String × JSON)))
    (servers : List (String × MCPServer)) : List (String × JSON) :=
  objSet (file.getD []) "mcpServers"
    (JSON.obj (servers.map (fun kv => (kv.1, JSON.obj (kiloServerDict kv.2)))))

/-- Modelled from the spec: `ClineAdapter.load` — `platforms/cline.py` is
not among the staged source files; per spec §4.3 it has the same VS Code
JSON shape as Kilo and Roo. -/
def clineLoad (file : Option (List (String × JSON))) :
    Except String (List (String × MCPServer)) :=
  match file with
  | none => .ok []
  | some data => loadServersFrom data "mcpServers"

/-- Modelled from the spec: `ClineAdapter.save` — like Kilo's. -/
def clineSave (file : Option (List (String × JSON)))
    (servers : List (String × MCPServer)) : List (String × JSON) :=
  objSet (file.getD []) "mcpServers"
    (JSON.obj (servers.map (fun kv => (kv.1, JSON.obj (kiloServerDict kv.2)))))

/-! ## Codex adapter (`codex.py` with `utils/toml_writer.py`)

The file is its parsed TOML value.  `save` does not read the existing
file at all: `write_toml_simple` emits only the `mcp_servers` section. -/

/-- What one server's `[mcp_servers.name]` table reparses to after
`CodexAdapter.save`: `command` always (the writer quotes it), `args` and
`env` only when non-empty (`write_toml_simple` skips empty ones). -/
def codexFileServerDict (server : MCPServer) : List (String × JSON) :=
  [("command", jsonOfOptStr server.command)]
  ++ (if server.args = [] then []
      else [("args", JSON.arr (server.args.map JSON.str))])
  ++ (if server.env = [] then []
      else [("env", JSON.obj (server.env.map (fun kv => (kv.1, JSON.str kv.2))))])

/-- `CodexAdapter.save`: filter to stdio servers, then write a file that
holds nothing but the `mcp_servers` section — the existing file is never
read, so no other top-level section survives. -/
def codexSave (servers : List (String × MCPServer)) : List (String × JSON) :=
  [("mcp_servers",
    JSON.obj ((servers.filter (fun kv => kv.2.type == "stdio")).map
      (fun kv => (kv.1, JSON.obj (codexFileServerDict kv.2)))))]

/-- `CodexAdapter.load`: empty dict when the file is absent, else the
decoded `mcp_servers` section (entries have no `type` key, so
`dict_to_server` defaults them to stdio). -/
def codexLoad (file : Option (List (String × JSON))) :
    Except String (List (String × MCPServer)) :=
  match file with
  | none => .ok []
  | some data => loadServersFrom data "mcp_servers"

/-! ### Dict-assignment and traversal lemmas -/

theorem lookup_objSet_self (l : List (String × JSON)) (k : String) (v : JSON) :
    jlookup (objSet l k v) k = some v := by
  induction l with
  | nil => simp [objSet, jlookup, List.lookup]
  | cons a rest ih =>
      by_cases hk : a.1 = k
      · simp [objSet, hk, jlookup, List.lookup]
      · have hbe : (k == a.1) = false := by
          simp
          exact fun h => hk h.symm
        simpa [objSet, hk, jlookup, List.lookup, hbe] using ih

theorem lookup_objSet_other (l : List (String × JSON)) (k k' : String) (v : JSON)
    (h : k' ≠ k) : jlookup (objSet l k v) k' = jlookup l k' := by
  have hbe : (k' == k) = false := by simp [h]
  induction l with
  | nil => simp [objSet, jlookup, List.lookup, hbe]
  | cons a rest ih =>
      by_cases hk : a.1 = k
      · subst hk
        simp [objSet, jlookup, List.lookup, hbe]
      · simp only [objSet, hk, if_false, jlookup, List.lookup]
        cases hbe2 : (k' == a.1) with
        | true => rfl
        | false => exact ih

theorem traverse_error_of_mem {α β : Type} (f : α → Except String β) (l : List α)
    (x : α) (hx : x ∈ l) (e : String) (he : f x = .error e) :
    ∃ msg, exceptTraverse f l = Except.error msg := by
  induction l with
  | nil => cases hx
  | cons a rest ih =>
      rcases List.mem_cons.mp hx with h | h
      · subst h
        exact ⟨e, by simp [exceptTraverse, he]⟩
      · cases ha : f a with
        | error e' => exact ⟨e', by simp [exceptTraverse, ha]⟩
        | ok b =>
            rcases ih h with ⟨msg, hmsg⟩
            exact ⟨msg, by simp [exceptTraverse, ha, hmsg, Except.map]⟩

theorem traverse_ok_of_all {α β : Type} (f : α → Except String β) (g : α → β)
    (l : List α) (h : ∀ x ∈ l, f x = .ok (g x)) :
    exceptTraverse f l = .ok (l.map g) := by
  induction l with
  | nil => simp [exceptTraverse]
  | cons a rest ih =>
      have ha := h a (List.mem_cons_self a rest)
      have hr := ih (fun x hx => h x (List.mem_cons_of_mem a hx))
      simp [exceptTraverse, ha, hr, Except.map]

/-- C2 counterexample: a Claude file holding one well-formed entry and one
stdio entry missing `command`.  `load()` does not skip the malformed
entry with a warning — the whole call fails with the `ValueError` that
`dict_to_server` raises. -/
theorem claude_load_does_not_skip_malformed :
    claudeLoad (some
      [("mcpServers", JSON.obj
        [("good", JSON.obj [("command", JSON.str "npx")]),
         ("bad", JSON.obj [])])])
      = .error "Server 'bad' missing required 'command' field" := rfl

/-- C2 as amended: `load()` does return the empty mapping when the config
file is absent, but a malformed server entry is not skipped: any entry on
which `dict_to_server` raises makes the whole `load()` call fail. -/
theorem claude_load_absent_empty_and_malformed_raises :
    (claudeLoad none = .ok []) ∧
    ∀ (data : List (String × JSON)) (entries : List (String × JSON)),
      jlookup data "mcpServers" = some (JSON.obj entries) →
      (∃ kv ∈ entries, ∃ e, decodeEntry kv = .error e) →
      ∃ msg, claudeLoad (some data) = .error msg := by
  refine ⟨rfl, ?_⟩
  intro data entries hsec hbad
  rcases hbad with ⟨kv, hmem, e, he⟩
  have : claudeLoad (some data) = exceptTraverse decodeEntry entries := by
    simp [claudeLoad, loadServersFrom, hsec]
  rcases traverse_error_of_mem decodeEntry entries kv hmem e he with ⟨msg, hmsg⟩
  exact ⟨msg, by rw [this, hmsg]⟩

/-- Witness for `claude_load_absent_empty_and_malformed_raises` at the
concrete malformed file of the counterexample. -/
theorem claude_load_absent_empty_and_malformed_raises_witness :
    ∃ msg, claudeLoad (some
      [("mcpServers", JSON.obj
        [("good", JSON.obj [("command", JSON.str "npx")]),
         ("bad", JSON.obj [])])]) = .error msg :=
  claude_load_absent_empty_and_malformed_raises.2
    _ _ rfl
    ⟨("bad", JSON.obj []),
     List.mem_cons_of_mem _ (List.mem_cons_self _ _),
     "Server 'bad' missing required 'command' field", rfl⟩

/-- C5 counterexample: the Codex adapter's `save` never reads the file it
overwrites.  With an existing Codex config holding an unrelated `model`
key, the file written by `save` holds only the `mcp_servers` section, so
`model` is gone. -/
theorem codex_save_drops_unrelated_sections :
    jlookup [("model", JSON.str "o3"),
             ("mcp_servers", JSON.obj [])] "model" = some (JSON.str "o3") ∧
    jlookup (codexSave
        [("fs", { name := "fs", type := "stdio", command := some "npx" })])
        "model" = none :=
  ⟨rfl, rfl⟩

/-- C5 as amended: the JSON adapters (Claude, Gemini, Kilo, and the
spec-modelled Roo and Cline) preserve every unrelated top-level key,
replacing only `mcpServers`; the Codex adapter instead rewrites the file
from scratch, so nothing but its `mcp_servers` section survives. -/
theorem save_preserves_unrelated_keys_except_codex
    (file : Option (List (String × JSON))) (S : List (String × MCPServer))
    (k : String) :
    (k ≠ "mcpServers" →
      jlookup (claudeSave file S) k = jlookup (file.getD []) k ∧
      jlookup (geminiSave file S) k = jlookup (file.getD []) k ∧
      jlookup (kiloSave file S) k = jlookup (file.getD []) k ∧
      jlookup (rooSave file S) k = jlookup (file.getD []) k ∧
      jlookup (clineSave file S) k = jlookup (file.getD []) k) ∧
    (k ≠ "mcp_servers" → jlookup (codexSave S) k = none) := by
  constructor
  · intro hk
    exact ⟨lookup_objSet_other _ _ _ _ hk, lookup_objSet_other _ _ _ _ hk,
           lookup_objSet_other _ _ _ _ hk, lookup_objSet_other _ _ _ _ hk,
           lookup_objSet_other _ _ _ _ hk⟩
  · intro hk
    have hbe : (k == "mcp_servers") = false := by simp [hk]
    simp [codexSave, jlookup, List.lookup, hbe]

/-- Witness for `save_preserves_unrelated_keys_except_codex` at a
concrete file with a `theme` key. -/
theorem save_preserves_unrelated_keys_except_codex_witness :
    jlookup (claudeSave (some [("theme", JSON.str "dark")])
        [("fs", { name := "fs", type := "stdio", command := some "npx" })])
      "theme" = some (JSON.str "dark") := by
  have h := (save_preserves_unrelated_keys_except_codex
      (some [("theme", JSON.str "dark")])
      [("fs", { name := "fs", type := "stdio", command := some "npx" })]
      "theme").1 (by decide)
  rw [h.1]
  rfl

/-! ### Round-trip (save then load) -/

/-- A server set entry expressible in the adapters' schemas: the entry's
name matches the server's `name`, a stdio server has a truthy command and
no http-only fields, an http server has a truthy url and no stdio-only
fields.  (This is what spec §4.3's schema admits; outside it the tools'
files cannot represent the server at all.) -/
def expressible (s : MCPServer) (k : String) : Prop :=
  s.name = k ∧
  ((s.type = "stdio" ∧ (∃ c, s.command = some c ∧ ¬ c = "") ∧
      s.url = none ∧ s.headers = []) ∨
   (s.type = "http" ∧ s.command = none ∧ s.args = [] ∧ s.env = [] ∧
      (∃ u, s.url = some u ∧ ¬ u = "")))

theorem expressible_cases (s : MCPServer) (k : String)
    (h : expressible s k) :
    (∃ c args env, ¬ c = "" ∧
       s = { name := k, type := "stdio", command := some c
             args := args, env := env }) ∨
    (∃ u headers, ¬ u = "" ∧
       s = { name := k, type := "http", url := some u
             headers := headers }) := by
  cases s with
  | mk name type command args env url headers =>
      obtain ⟨hname, hcase⟩ := h
      dsimp at hname
      subst hname
      rcases hcase with ⟨htype, ⟨c, hcmd, hc⟩, hurl, hh⟩ |
        ⟨htype, hcmd, hargs, henv, u, hurl, hu⟩
      · dsimp at htype hcmd hurl hh
        subst htype hcmd hurl hh
        exact Or.inl ⟨c, args, env, hc, rfl⟩
      · dsimp at htype hcmd hargs henv hurl
        subst htype hcmd hargs henv hurl
        exact Or.inr ⟨u, headers, hu, rfl⟩

theorem jDecodeStr_str (s : String) : jDecodeStr (JSON.str s) = some s := rfl

theorem optTraverse_decode_str (args : List String) :
    optTraverse jDecodeStr (args.map JSON.str) = some args := by
  induction args with
  | nil => rfl
  | cons a rest ih => simp [optTraverse, jDecodeStr_str, ih]

theorem optTraverse_decode_map (env : List (String × String)) :
    optTraverse (fun kv => (jDecodeStr kv.2).map (fun v => (kv.1, v)))
      (env.map (fun kv => (kv.1, JSON.str kv.2))) = some env := by
  induction env with
  | nil => rfl
  | cons a rest ih => simp [optTraverse, jDecodeStr_str, ih]

theorem dict_to_server_round_stdio (k c : String) (args : List String)
    (env : List (String × String)) :
    dict_to_server k (server_to_dict
      { name := k, type := "stdio", command := some c
        args := args, env := env }) =
      .ok { name := k, type := "stdio", command := some c
            args := args, env := env } := by
  by_cases henv : env = [] <;>
    simp [server_to_dict, dict_to_server, jlookup, List.lookup, jIsStr,
      jsonOfOptStr, jDecodeOptStr, jDecodeStrList, jDecodeStrMap,
      optTraverse, optTraverse_decode_str, optTraverse_decode_map, henv]

theorem dict_to_server_round_http (k u : String) (hu : ¬ u = "")
    (headers : List (String × String)) :
    dict_to_server k (server_to_dict
      { name := k, type := "http", url := some u, headers := headers }) =
      .ok { name := k, type := "http", url := some u
            headers := headers } := by
  by_cases hh : headers = [] <;>
    simp [server_to_dict, dict_to_server, jlookup, List.lookup, jIsStr,
      strTruthy, jsonOfOptStr, jDecodeOptStr, jDecodeStrMap,
      optTraverse, optTraverse_decode_map, hu, hh]

theorem dict_to_server_round_kilo_stdio (k c : String) (args : List String)
    (env : List (String × String)) :
    dict_to_server k (kiloServerDict
      { name := k, type := "stdio", command := some c
        args := args, env := env }) =
      .ok { name := k, type := "stdio", command := some c
            args := args, env := env } := by
  by_cases henv : env = [] <;>
    simp [kiloServerDict, server_to_dict, dict_to_server, jlookup,
      List.lookup, jIsStr, jsonOfOptStr, jDecodeOptStr, jDecodeStrList,
      jDecodeStrMap, optTraverse, optTraverse_decode_str,
      optTraverse_decode_map, henv]

theorem dict_to_server_round_kilo_http (k u : String) (hu : ¬ u = "")
    (headers : List (String × String)) :
    dict_to_server k (kiloServerDict
      { name := k, type := "http", url := some u, headers := headers }) =
      .ok { name := k, type := "http", url := some u
            headers := headers } := by
  by_cases hh : headers = [] <;>
    simp [kiloServerDict, server_to_dict, dict_to_server, jlookup,
      List.lookup, jIsStr, strTruthy, jsonOfOptStr, jDecodeOptStr,
      jDecodeStrMap, optTraverse, optTraverse_decode_map, hu, hh]

theorem dict_to_server_round_codex (k c : String) (args : List String)
    (env : List (String × String)) :
    dict_to_server k (codexFileServerDict
      { name := k, type := "stdio", command := some c
        args := args, env := env }) =
      .ok { name := k, type := "stdio", command := some c
            args := args, env := env } := by
  by_cases hargs : args = [] <;> by_cases henv : env = [] <;>
    simp [codexFileServerDict, dict_to_server, jlookup, List.lookup,
      jIsStr, jsonOfOptStr, jDecodeOptStr, jDecodeStrList, jDecodeStrMap,
      optTraverse, optTraverse_decode_str, optTraverse_decode_map, hargs, henv]

theorem traverse_decode_encode (enc : (String × MCPServer) → (String × JSON))
    (S : List (String × MCPServer))
    (h : ∀ kv ∈ S, decodeEntry (enc kv) = .ok kv) :
    exceptTraverse decodeEntry (S.map enc) = .ok S := by
  induction S with
  | nil => rfl
  | cons a rest ih =>
      have ha := h a (List.mem_cons_self a rest)
      have hr := ih (fun x hx => h x (List.mem_cons_of_mem a hx))
      simp [exceptTraverse, ha, hr, Except.map]

/-- C6: save-then-load round trip for every adapter.  For any server set
expressible in the adapters' schemas, each JSON adapter's `load` after
`save` returns the saved set unchanged (for any prior file state), and
the stdio-only Codex adapter returns exactly the stdio subset — the
documented field drop. -/
theorem adapters_round_trip (file : Option (List (String × JSON)))
    (S : List (String × MCPServer))
    (h : ∀ kv ∈ S, expressible kv.2 kv.1) :
    claudeLoad (some (claudeSave file S)) = .ok S ∧
    geminiLoad (some (geminiSave file S)) = .ok S ∧
    kiloLoad (some (kiloSave file S)) = .ok S ∧
    rooLoad (some (rooSave file S)) = .ok S ∧
    clineLoad (some (clineSave file S)) = .ok S ∧
    codexLoad (some (codexSave S)) =
      .ok (S.filter (fun kv => kv.2.type == "stdio")) := by
  have hdec : ∀ kv ∈ S,
      decodeEntry (kv.1, JSON.obj (server_to_dict kv.2)) = .ok kv := by
    intro kv hkv
    obtain ⟨k, s⟩ := kv
    rcases expressible_cases s k (h (k, s) hkv) with
      ⟨c, args, env, hc, hs⟩ | ⟨u, headers, hu, hs⟩
    · subst hs
      simp [decodeEntry, dict_to_server_round_stdio, Except.map]
    · subst hs
      simp [decodeEntry, dict_to_server_round_http k u hu headers, Except.map]
  have hdecK : ∀ kv ∈ S,
      decodeEntry (kv.1, JSON.obj (kiloServerDict kv.2)) = .ok kv := by
    intro kv hkv
    obtain ⟨k, s⟩ := kv
    rcases expressible_cases s k (h (k, s) hkv) with
      ⟨c, args, env, hc, hs⟩ | ⟨u, headers, hu, hs⟩
    · subst hs
      simp [decodeEntry, dict_to_server_round_kilo_stdio, Except.map]
    · subst hs
      simp [decodeEntry, dict_to_server_round_kilo_http k u hu headers,
        Except.map]
  have hdecC : ∀ kv ∈ S.filter (fun kv => kv.2.type == "stdio"),
      decodeEntry (kv.1, JSON.obj (codexFileServerDict kv.2)) = .ok kv := by
    intro kv hkv
    have hmem := List.mem_filter.mp hkv
    obtain ⟨k, s⟩ := kv
    rcases expressible_cases s k (h (k, s) hmem.1) with
      ⟨c, args, env, hc, hs⟩ | ⟨u, headers, hu, hs⟩
    · subst hs
      simp [decodeEntry, dict_to_server_round_codex, Except.map]
    · exfalso
      have hb := hmem.2
      rw [hs] at hb
      simp at hb
  have hJ : ∀ fl : List (String × JSON),
      loadServersFrom (objSet fl "mcpServers"
        (JSON.obj (S.map (fun kv => (kv.1, JSON.obj (server_to_dict kv.2))))))
        "mcpServers" = .ok S := by
    intro fl
    unfold loadServersFrom
    rw [lookup_objSet_self]
    exact traverse_decode_encode _ S hdec
  have hK : ∀ fl : List (String × JSON),
      loadServersFrom (objSet fl "mcpServers"
        (JSON.obj (S.map (fun kv => (kv.1, JSON.obj (kiloServerDict kv.2))))))
        "mcpServers" = .ok S := by
    intro fl
    unfold loadServersFrom
    rw [lookup_objSet_self]
    exact traverse_decode_encode _ S hdecK
  refine ⟨hJ _, hJ _, hK _, hK _, hK _, ?_⟩
  show loadServersFrom (codexSave S) "mcp_servers" = _
  unfold loadServersFrom codexSave
  exact traverse_decode_encode _ _ hdecC

/-- Witness for `adapters_round_trip`: one stdio and one http server on
top of a file holding an unrelated `theme` key. -/
theorem adapters_round_trip_witness :
    claudeLoad (some (claudeSave (some [("theme", JSON.str "dark")])
      [("fs", { name := "fs", type := "stdio", command := some "npx"
                args := ["-y"], env := [("A", "1")] }),
       ("api", { name := "api", type := "http", url := some "https://x.test"
                 headers := [("K", "v")] })])) = .ok
      [("fs", { name := "fs", type := "stdio", command := some "npx"
                args := ["-y"], env := [("A", "1")] }),
       ("api", { name := "api", type := "http", url := some "https://x.test"
                 headers := [("K", "v")] })] :=
  (adapters_round_trip (some [("theme", JSON.str "dark")]) _
    (by
      intro kv hkv
      rcases List.mem_cons.mp hkv with h | h
      · subst h
        exact ⟨rfl, Or.inl ⟨rfl, ⟨"npx", rfl, by decide⟩, rfl, rfl⟩⟩
      · rcases List.mem_cons.mp h with h2 | h2
        · subst h2
          exact ⟨rfl, Or.inr ⟨rfl, rfl, rfl, rfl,
            "https://x.test", rfl, by decide⟩⟩
        · cases h2)).1

/-! ## Backup retention (`utils/backup.py`, `cleanup_old_backups`) -/

/-- One entry of `backup_dir.iterdir()`: a file name and whether it is a
regular file (directories have `isFile = false`). -/
structure DirEntry where
  name : String
  isFile : Bool
  deriving Repr, DecidableEq

/-- A backup-shaped file inside one platform group: its embedded
timestamp string (the sort key) and its full filename. -/
structure TsFile where
  ts : String
  fname : String
  deriving Repr, DecidableEq

/-- `\d` on one character. -/
def isDigitB (c : Char) : Bool := 48 ≤ c.toNat && c.toNat ≤ 57

/-- The `\d{8}_\d{6}` timestamp shape (exactly 15 characters). -/
def tsShape : List Char → Bool
  | [a, b, c, d, e, f, g, h, u, i, j, k, l, m, n] =>
      isDigitB a && isDigitB b && isDigitB c && isDigitB d &&
      isDigitB e && isDigitB f && isDigitB g && isDigitB h &&
      (u = '_') && isDigitB i && isDigitB j && isDigitB k &&
      isDigitB l && isDigitB m && isDigitB n
  | _ => false

/-- The regex tail at one split point: an underscore, the 15-character
timestamp, a literal dot and a non-empty extension; yields the timestamp
group. -/
def tailMatch : List Char → Option String
  | '_' :: rest =>
      if tsShape (rest.take 15) then
        match rest.drop 15 with
        | '.' :: _ :: _ => some (String.mk (rest.take 15))
        | ['.'] => none
        | _ => none
      else none
  | _ => none

/-- Scan split points left to right (the non-greedy `(.+?)` prefix takes
the shortest prefix whose tail matches), accumulating the prefix. -/
def matchBackupAux (pre : List Char) : List Char → Option (String × String)
  | [] => none
  | c :: cs =>
      match tailMatch (c :: cs) with
      | some ts => some (String.mk pre, ts)
      | none => matchBackupAux (pre ++ [c]) cs

/-- The backup filename pattern of `cleanup_old_backups` — a non-greedy
non-empty prefix, `_`, eight digits, `_`, six digits, a dot and a
non-empty extension — returning the (platform, timestamp) groups of the
leftmost match, as `re.match` does. -/
def matchBackup (name : String) : Option (String × String) :=
  match name.data with
  | [] => none
  | c :: cs => matchBackupAux [c] cs

/-- One `iterdir()` entry as the grouping loop sees it: skip directories,
skip non-matching names, else its platform key with timestamp and
filename. -/
def entryMatch (e : DirEntry) : Option (String × TsFile) :=
  if e.isFile then
    (matchBackup e.name).map (fun pt => (pt.1, ⟨pt.2, e.name⟩))
  else none

/-- The per-platform list the grouping dict holds for key `p`, in
directory-iteration order. -/
def groupOf (entries : List DirEntry) (p : String) : List TsFile :=
  entries.filterMap (fun e =>
    match entryMatch e with
    | some (q, f) => if q = p then some f else none
    | none => none)

/-- First-occurrence deduplication: the grouping dict's key order. -/
def dedupKeys : List String → List String
  | [] => []
  | x :: xs => x :: (dedupKeys xs).filter (fun y => y ≠ x)

/-- The grouping dict's keys in insertion order. -/
def platformsOf (entries : List DirEntry) : List String :=
  dedupKeys (entries.filterMap (fun e => (entryMatch e).map Prod.fst))

/-- Stable descending insertion by timestamp: the new element goes after
every element whose timestamp is not strictly older.  Equal keys keep
their original order, exactly as Python's stable `sort(key=...,
reverse=True)`. -/
def insertDesc (x : TsFile) : List TsFile → List TsFile
  | [] => [x]
  | y :: ys => if strLtB y.ts x.ts then x :: y :: ys else y :: insertDesc x ys

def sortDescAux (acc : List TsFile) : List TsFile → List TsFile
  | [] => acc
  | x :: xs => sortDescAux (insertDesc x acc) xs

/-- Stable sort by timestamp, newest first — the same list Python's
stable descending sort produces. -/
def sortDesc (l : List TsFile) : List TsFile := sortDescAux [] l

/-- `cleanup_old_backups(backup_dir, max_backups_per_platform)` over the
directory listing: for each platform group in dict order, keep the newest
`maxPer`, delete the rest (deletions succeed; a failed `unlink` is only
logged in the source and no claim mentions one).  Returns the deleted
names. -/
def cleanup_old_backups (entries : List DirEntry) (maxPer : Nat) :
    List String :=
  (platformsOf entries).flatMap (fun p =>
    ((sortDesc (groupOf entries p)).drop maxPer).map (fun f => f.fname))

/-! ### Ordering lemmas for the timestamp comparison -/

theorem charLtB_iff (a b : Char) : charLtB a b = true ↔ a.toNat < b.toNat := by
  simp [charLtB]

theorem charLtB_false_iff (a b : Char) :
    charLtB a b = false ↔ ¬ a.toNat < b.toNat := by
  simp [charLtB]

theorem charsLt_asymm (a : List Char) :
    ∀ b, charsLt a b = true → charsLt b a = false := by
  induction a with
  | nil =>
      intro b hb
      cases b with
      | nil => simp [charsLt] at hb
      | cons c cs => simp [charsLt]
  | cons x xs ih =>
      intro b hb
      cases b with
      | nil => simp [charsLt] at hb
      | cons y ys =>
          cases hxy : charLtB x y with
          | true =>
              have hyx : charLtB y x = false := by
                rw [charLtB_iff] at hxy
                rw [charLtB_false_iff]
                omega
              simp [charsLt, hxy, hyx]
          | false =>
              cases hyx : charLtB y x with
              | true => simp [charsLt, hxy, hyx] at hb
              | false =>
                  simp [charsLt, hxy, hyx] at hb ⊢
                  exact ih ys hb

theorem charsLt_step (x y : Char) (xs ys : List Char)
    (h : charsLt (x :: xs) (y :: ys) = true) :
    x.toNat < y.toNat ∨ (x.toNat = y.toNat ∧ charsLt xs ys = true) := by
  cases hxy : charLtB x y with
  | true => exact Or.inl ((charLtB_iff x y).mp hxy)
  | false =>
      cases hyx : charLtB y x with
      | true => simp [charsLt, hxy, hyx] at h
      | false =>
          refine Or.inr ⟨?_, ?_⟩
          · have h1 := (charLtB_false_iff x y).mp hxy
            have h2 := (charLtB_false_iff y x).mp hyx
            omega
          · simpa [charsLt, hxy, hyx] using h

theorem charsLt_trans (a : List Char) :
    ∀ b c, charsLt a b = true → charsLt b c = true → charsLt a c = true := by
  induction a with
  | nil =>
      intro b c hab hbc
      cases b with
      | nil => simp [charsLt] at hab
      | cons y ys =>
          cases c with
          | nil => simp [charsLt] at hbc
          | cons z zs => simp [charsLt]
  | cons x xs ih =>
      intro b c hab hbc
      cases b with
      | nil => simp [charsLt] at hab
      | cons y ys =>
          cases c with
          | nil => simp [charsLt] at hbc
          | cons z zs =>
              rcases charsLt_step x y xs ys hab with h1 | ⟨h1, hrec1⟩ <;>
                rcases charsLt_step y z ys zs hbc with h2 | ⟨h2, hrec2⟩
              · have hxz : charLtB x z = true := by rw [charLtB_iff]; omega
                simp [charsLt, hxz]
              · have hxz : charLtB x z = true := by rw [charLtB_iff]; omega
                simp [charsLt, hxz]
              · have hxz : charLtB x z = true := by rw [charLtB_iff]; omega
                simp [charsLt, hxz]
              · have hxz : charLtB x z = false := by
                  rw [charLtB_false_iff]; omega
                have hzx : charLtB z x = false := by
                  rw [charLtB_false_iff]; omega
                simp [charsLt, hxz, hzx]
                exact ih ys zs hrec1 hrec2

theorem strLtB_asymm (a b : String) (h : strLtB a b = true) :
    strLtB b a = false :=
  charsLt_asymm a.data b.data h

theorem strLtB_trans (a b c : String) (hab : strLtB a b = true)
    (hbc : strLtB b c = true) : strLtB a c = true :=
  charsLt_trans a.data b.data c.data hab hbc

/-! ### Sorting lemmas -/

theorem perm_insertDesc (x : TsFile) (l : List TsFile) :
    (insertDesc x l).Perm (x :: l) := by
  induction l with
  | nil => exact List.Perm.refl _
  | cons y ys ih =>
      by_cases h : strLtB y.ts x.ts = true
      · simp [insertDesc, h]
      · simp only [insertDesc, h, if_false]
        exact (ih.cons y).trans (List.Perm.swap x y ys)

theorem perm_sortDescAux (l : List TsFile) :
    ∀ acc, (sortDescAux acc l).Perm (acc ++ l) := by
  induction l with
  | nil => intro acc; simp [sortDescAux]
  | cons x xs ih =>
      intro acc
      have h1 := ih (insertDesc x acc)
      have h2 : (insertDesc x acc ++ xs).Perm ((x :: acc) ++ xs) :=
        (perm_insertDesc x acc).append_right xs
      exact (h1.trans h2).trans List.perm_middle.symm

theorem perm_sortDesc (l : List TsFile) : (sortDesc l).Perm l := by
  simpa using perm_sortDescAux l []

theorem length_sortDesc (l : List TsFile) :
    (sortDesc l).length = l.length :=
  (perm_sortDesc l).length_eq

theorem pairwise_insertDesc (x : TsFile) (l : List TsFile)
    (hl : l.Pairwise (fun a b => strLtB a.ts b.ts = false)) :
    (insertDesc x l).Pairwise (fun a b => strLtB a.ts b.ts = false) := by
  induction l with
  | nil => simp [insertDesc]
  | cons y ys ih =>
      rw [List.pairwise_cons] at hl
      obtain ⟨hy, hys⟩ := hl
      by_cases h : strLtB y.ts x.ts = true
      · simp only [insertDesc, h, if_true]
        refine List.Pairwise.cons ?_ (List.Pairwise.cons hy hys)
        intro z hz
        rcases List.mem_cons.mp hz with hzy | hzys
        · subst hzy
          exact strLtB_asymm _ _ h
        · cases hxz : strLtB x.ts z.ts with
          | false => rfl
          | true =>
              have hyz := strLtB_trans _ _ _ h hxz
              rw [hy z hzys] at hyz
              cases hyz
      · simp only [insertDesc, h, if_false]
        refine List.Pairwise.cons ?_ (ih hys)
        intro z hz
        have hz2 := (perm_insertDesc x ys).mem_iff.mp hz
        rcases List.mem_cons.mp hz2 with hzx | hzys
        · subst hzx
          simpa using h
        · exact hy z hzys

theorem pairwise_sortDescAux (l : List TsFile) :
    ∀ acc, acc.Pairwise (fun a b => strLtB a.ts b.ts = false) →
      (sortDescAux acc l).Pairwise (fun a b => strLtB a.ts b.ts = false) := by
  induction l with
  | nil => intro acc hacc; simpa [sortDescAux] using hacc
  | cons x xs ih =>
      intro acc hacc
      exact ih (insertDesc x acc) (pairwise_insertDesc x acc hacc)

theorem pairwise_sortDesc (l : List TsFile) :
    (sortDesc l).Pairwise (fun a b => strLtB a.ts b.ts = false) :=
  pairwise_sortDescAux l [] (List.Pairwise.nil)

theorem groupOf_mem (entries : List DirEntry) (p : String) (f : TsFile)
    (hf : f ∈ groupOf entries p) :
    ∃ e ∈ entries, e.isFile = true ∧ e.name = f.fname ∧
      matchBackup e.name = some (p, f.ts) := by
  unfold groupOf at hf
  rcases List.mem_filterMap.mp hf with ⟨e, he, hmatch⟩
  cases hem : entryMatch e with
  | none => rw [hem] at hmatch; cases hmatch
  | some qf =>
      obtain ⟨q, f'⟩ := qf
      rw [hem] at hmatch
      by_cases hq : q = p
      · subst hq
        simp only [if_true] at hmatch
        have hf' : f' = f := Option.some.inj hmatch
        unfold entryMatch at hem
        cases hif : e.isFile with
        | false => rw [hif] at hem; simp at hem
        | true =>
            rw [hif] at hem
            simp only [if_true] at hem
            cases hmb : matchBackup e.name with
            | none => rw [hmb] at hem; simp at hem
            | some pt =>
                obtain ⟨p1, p2⟩ := pt
                rw [hmb] at hem
                simp only [Option.map_some'] at hem
                have h2 : ((p1, (⟨p2, e.name⟩ : TsFile)) : String × TsFile)
                    = (q, f') := Option.some.inj hem
                have hq2 : p1 = q := congrArg Prod.fst h2
                have hf2 : (⟨p2, e.name⟩ : TsFile) = f' := congrArg Prod.snd h2
                subst hq2
                refine ⟨e, he, hif, ?_, ?_⟩
                · rw [← hf', ← hf2]
                · rw [hmb, ← hf', ← hf2]
      · simp [hq] at hmatch

/-- C4: retention behaviour of `cleanup_old_backups`.  Every deleted path
is a backup-shaped regular file of the directory (non-matching files and
directories are never deleted); per platform prefix the kept and deleted
parts partition the group; every kept file is at least as recent as every
deleted one; and a group of `maxPer + k` files (k > 0) keeps exactly
`maxPer` and deletes exactly `k`. -/
theorem cleanup_old_backups_retention (entries : List DirEntry) (maxPer : Nat) :
    (∀ d ∈ cleanup_old_backups entries maxPer,
       ∃ e ∈ entries, e.isFile = true ∧ e.name = d ∧
         (matchBackup d).isSome) ∧
    (∀ p, (((sortDesc (groupOf entries p)).take maxPer) ++
           ((sortDesc (groupOf entries p)).drop maxPer)).Perm
            (groupOf entries p)) ∧
    (∀ p, ∀ x ∈ (sortDesc (groupOf entries p)).take maxPer,
          ∀ y ∈ (sortDesc (groupOf entries p)).drop maxPer,
          strLtB x.ts y.ts = false) ∧
    (∀ p k, 0 < k → (groupOf entries p).length = maxPer + k →
       ((sortDesc (groupOf entries p)).take maxPer).length = maxPer ∧
       ((sortDesc (groupOf entries p)).drop maxPer).length = k) := by
  refine ⟨?_, ?_, ?_, ?_⟩
  · intro d hd
    unfold cleanup_old_backups at hd
    rcases List.mem_flatMap.mp hd with ⟨p, hp, hdp⟩
    rcases List.mem_map.mp hdp with ⟨f, hfd, hffname⟩
    have hfs : f ∈ sortDesc (groupOf entries p) := List.mem_of_mem_drop hfd
    have hfg : f ∈ groupOf entries p := (perm_sortDesc _).mem_iff.mp hfs
    rcases groupOf_mem entries p f hfg with ⟨e, he, hisfile, hname, hmb⟩
    refine ⟨e, he, hisfile, ?_, ?_⟩
    · rw [hname, hffname]
    · rw [← hffname, ← hname, hmb]
      rfl
  · intro p
    rw [List.take_append_drop]
    exact perm_sortDesc _
  · intro p x hx y hy
    have hp := pairwise_sortDesc (groupOf entries p)
    rw [← List.take_append_drop maxPer (sortDesc (groupOf entries p))] at hp
    exact (List.pairwise_append.mp hp).2.2 x hx y hy
  · intro p k hk hlen
    have hsl : (sortDesc (groupOf entries p)).length = maxPer + k := by
      rw [length_sortDesc, hlen]
    constructor
    · rw [List.length_take, hsl]
      omega
    · rw [List.length_drop, hsl]
      omega

/-- A concrete backup directory: three `claude` backups, one unrelated
file, one directory. -/
def backupDirExample : List DirEntry :=
  [⟨"claude_20260101_120000.json", true⟩,
   ⟨"claude_20260102_120000.json", true⟩,
   ⟨"claude_20260103_120000.json", true⟩,
   ⟨"README.md", true⟩,
   ⟨"nested", false⟩]

/-- Witness for `cleanup_old_backups_retention`: with three `claude`
backups and `maxPer = 2`, exactly two remain and one is deleted. -/
theorem cleanup_old_backups_retention_witness :
    (0 < 1 ∧ (groupOf backupDirExample "claude").length = 2 + 1) ∧
    ((sortDesc (groupOf backupDirExample "claude")).take 2).length = 2 ∧
    ((sortDesc (groupOf backupDirExample "claude")).drop 2).length = 1 :=
  ⟨⟨Nat.one_pos, by decide⟩,
   (cleanup_old_backups_retention backupDirExample 2).2.2.2 "claude" 1
     Nat.one_pos (by decide)⟩

/-! ## Sync engine (`sync.py`, `sync_all`) -/

/-- `SyncReport` from `sync.py`. -/
structure SyncReport where
  platforms_synced : Nat
  platforms_total : Nat
  servers_synced : List (String × Nat)
  errors : List String
  deriving Repr, DecidableEq

/-- Dict assignment for the per-platform counts. -/
def recordCount : List (String × Nat) → String → Nat → List (String × Nat)
  | [], k, v => [(k, v)]
  | (k', v') :: rest, k, v =>
      if k' = k then (k, v) :: rest else (k', v') :: recordCount rest k v

/-- `SyncReport.add_platform_result`: bump the synced counter when the
count is positive, always record the count. -/
def add_platform_result (r : SyncReport) (platformName : String)
    (count : Nat) : SyncReport :=
  { r with
    platforms_synced :=
      if 0 < count then r.platforms_synced + 1 else r.platforms_synced
    servers_synced := recordCount r.servers_synced platformName count }

/-- `SyncReport.add_error`. -/
def add_error (r : SyncReport) (msg : String) : SyncReport :=
  { r with errors := r.errors ++ [msg] }

/-- What one registered platform will do when the sync touches it.
`configPathExists` is whether `platform.config_path` resolves — for this
repository's adapters the property returns `None` exactly when the file
does not exist.  The three `Except` fields are the outcomes of the
`create_backup`, `load` and `save` calls; an `Except.error` is a raised
exception, caught by `sync_all`'s per-platform handler. -/
structure PlatformModel where
  name : String
  configPathExists : Bool
  backupResult : Except String Unit
  loadResult : Except String (List (String × MCPServer))
  saveResult : Except String Unit

/-- A filesystem-touching call `sync_all` performed, in order. -/
inductive SyncOp where
  | backup (platform : String)
  | load (platform : String)
  | save (platform : String) (servers : List (String × MCPServer))
  deriving Repr, DecidableEq

/-- The platform a trace operation touched. -/
def syncOpPlatform : SyncOp → String
  | .backup p => p
  | .load p => p
  | .save p _ => p

/-- The per-platform body of `sync_all`'s loop, with its
`except Exception` handler: a missing config path records an error and a
zero count and touches no file; otherwise backup, load, merge and save
run in order, stopping at the first raised step, which is recorded as
`"{platform}: {message}"` with a zero count. -/
def syncPlatform (managed : List (String × MCPServer)) (r : SyncReport)
    (p : PlatformModel) : SyncReport × List SyncOp :=
  match p.configPathExists with
  | false =>
    (add_platform_result
      (add_error r (p.name ++ ": config path not found (platform not installed?)"))
      p.name 0, [])
  | true =>
    match p.backupResult with
    | .error e =>
        (add_platform_result (add_error r (p.name ++ ": " ++ e)) p.name 0,
         [.backup p.name])
    | .ok _ =>
        match p.loadResult with
        | .error e =>
            (add_platform_result (add_error r (p.name ++ ": " ++ e)) p.name 0,
             [.backup p.name, .load p.name])
        | .ok existing =>
            let merged := merge_servers managed existing
            match p.saveResult with
            | .error e =>
                (add_platform_result (add_error r (p.name ++ ": " ++ e))
                  p.name 0,
                 [.backup p.name, .load p.name, .save p.name merged])
            | .ok _ =>
                (add_platform_result r p.name merged.length,
                 [.backup p.name, .load p.name, .save p.name merged])

/-- `sync_all`'s platform loop, threading the report and concatenating
each platform's operation trace. -/
def syncLoop (managed : List (String × MCPServer)) :
    SyncReport → List PlatformModel → SyncReport × List SyncOp
  | r, [] => (r, [])
  | r, p :: rest =>
      let step := syncPlatform managed r p
      let tail := syncLoop managed step.1 rest
      (tail.1, step.2 ++ tail.2)

/-- The fail-fast validation pass of `sync_all`: one
`"Server '{name}': {message}"` entry per error-severity result, in config
order. -/
def validationErrors (sys : SysEnv) (config : Config) : List String :=
  config.servers.flatMap (fun kv =>
    (validate_server sys kv.2).filterMap (fun err =>
      if err.severity = "error"
      then some ("Server '" ++ kv.1 ++ "': " ++ err.message)
      else none))

/-- `sync_all(config)` over the registered platforms: validate every
server first and, when any error-severity result exists, return the
report with those errors and touch nothing; otherwise run the
per-platform loop. -/
def sync_all (sys : SysEnv) (config : Config)
    (platforms : List PlatformModel) : SyncReport × List SyncOp :=
  let report : SyncReport :=
    { platforms_synced := 0, platforms_total := platforms.length
      servers_synced := [], errors := [] }
  let verrs := validationErrors sys config
  if verrs = [] then
    syncLoop config.servers report platforms
  else
    ({ report with errors := verrs }, [])

/-! ### Sync-engine lemmas -/

theorem syncPlatform_keeps_errors (managed : List (String × MCPServer))
    (r : SyncReport) (p : PlatformModel) (e : String) (he : e ∈ r.errors) :
    e ∈ (syncPlatform managed r p).1.errors := by
  unfold syncPlatform
  cases p.configPathExists with
  | false => exact List.mem_append_left _ he
  | true =>
      cases p.backupResult with
      | error eb => exact List.mem_append_left _ he
      | ok _ =>
          cases p.loadResult with
          | error el => exact List.mem_append_left _ he
          | ok existing =>
              cases p.saveResult with
              | error es => exact List.mem_append_left _ he
              | ok _ => exact he

theorem syncLoop_keeps_errors (managed : List (String × MCPServer))
    (l : List PlatformModel) :
    ∀ (r : SyncReport) (e : String), e ∈ r.errors →
      e ∈ (syncLoop managed r l).1.errors := by
  induction l with
  | nil => intro r e he; exact he
  | cons p rest ih =>
      intro r e he
      exact ih _ e (syncPlatform_keeps_errors managed r p e he)

theorem syncLoop_trace_from_present_paths
    (managed : List (String × MCPServer)) (l : List PlatformModel) :
    ∀ (r : SyncReport), ∀ op ∈ (syncLoop managed r l).2,
      ∃ q ∈ l, q.configPathExists = true ∧ syncOpPlatform op = q.name := by
  induction l with
  | nil => intro r op hop; cases hop
  | cons p rest ih =>
      intro r op hop
      rcases List.mem_append.mp hop with hops | hops
      · unfold syncPlatform at hops
        cases hpc : p.configPathExists with
        | false =>
            rw [hpc] at hops
            cases hops
        | true =>
            rw [hpc] at hops
            refine ⟨p, List.mem_cons_self p rest, hpc, ?_⟩
            cases hbr : p.backupResult with
            | error eb =>
                rw [hbr] at hops
                rcases List.mem_cons.mp hops with h | h
                · subst h; rfl
                · cases h
            | ok u =>
                rw [hbr] at hops
                cases hlr : p.loadResult with
                | error el =>
                    rw [hlr] at hops
                    rcases List.mem_cons.mp hops with h | h
                    · subst h; rfl
                    · rcases List.mem_cons.mp h with h2 | h2
                      · subst h2; rfl
                      · cases h2
                | ok existing =>
                    rw [hlr] at hops
                    cases hsr : p.saveResult with
                    | error es =>
                        rw [hsr] at hops
                        rcases List.mem_cons.mp hops with h | h
                        · subst h; rfl
                        · rcases List.mem_cons.mp h with h2 | h2
                          · subst h2; rfl
                          · rcases List.mem_cons.mp h2 with h3 | h3
                            · subst h3; rfl
                            · cases h3
                    | ok u2 =>
                        rw [hsr] at hops
                        rcases List.mem_cons.mp hops with h | h
                        · subst h; rfl
                        · rcases List.mem_cons.mp h with h2 | h2
                          · subst h2; rfl
                          · rcases List.mem_cons.mp h2 with h3 | h3
                            · subst h3; rfl
                            · cases h3
      · rcases ih _ op hops with ⟨q, hq, hqp, hqn⟩
        exact ⟨q, List.mem_cons_of_mem p hq, hqp, hqn⟩

theorem syncPlatform_skip_error (managed : List (String × MCPServer))
    (r : SyncReport) (p : PlatformModel) (hp : p.configPathExists = false) :
    (p.name ++ ": config path not found (platform not installed?)")
      ∈ (syncPlatform managed r p).1.errors := by
  unfold syncPlatform
  rw [hp]
  exact List.mem_append_right _ (List.mem_singleton.mpr rfl)

/-- C3: when any server of the config has an error-severity validation
result, `sync_all` short-circuits: the report's `platforms_synced` is 0,
its `errors` list is exactly the one-message-per-error-severity-result
list of the validation pass, and the operation trace is empty — no
backup, load or save is ever invoked, so no file is touched. -/
theorem sync_all_short_circuits_on_validation_error
    (sys : SysEnv) (config : Config) (platforms : List PlatformModel)
    (h : ∃ kv ∈ config.servers,
      ∃ err ∈ validate_server sys kv.2, err.severity = "error") :
    (sync_all sys config platforms).1.platforms_synced = 0 ∧
    (sync_all sys config platforms).1.errors = validationErrors sys config ∧
    (sync_all sys config platforms).2 = [] := by
  rcases h with ⟨kv, hkv, err, herr, hsev⟩
  have hmem : ("Server '" ++ kv.1 ++ "': " ++ err.message)
      ∈ validationErrors sys config := by
    unfold validationErrors
    refine List.mem_flatMap.mpr ⟨kv, hkv, ?_⟩
    refine List.mem_filterMap.mpr ⟨err, herr, ?_⟩
    simp [hsev]
  have hne : ¬ validationErrors sys config = [] :=
    List.ne_nil_of_mem hmem
  unfold sync_all
  rw [if_neg hne]
  exact ⟨rfl, rfl, rfl⟩

/-- Witness for `sync_all_short_circuits_on_validation_error`: one stdio
server whose command resolves nowhere on PATH. -/
theorem sync_all_short_circuits_on_validation_error_witness :
    (sync_all
      ⟨fun _ => false, fun _ => true, fun _ => none, fun _ => "", fun _ => ""⟩
      ⟨"1.0", [("ghost", { name := "ghost", type := "stdio"
                           command := some "not_a_real_cmd_xyz" })]⟩
      [⟨"Claude Code", true, .ok (), .ok [], .ok ()⟩]).2 = [] :=
  (sync_all_short_circuits_on_validation_error _ _ _
    ⟨("ghost", { name := "ghost", type := "stdio"
                 command := some "not_a_real_cmd_xyz" }),
     List.mem_singleton.mpr rfl,
     ⟨"ghost", "Command not found: not_a_real_cmd_xyz", "error"⟩,
     by decide, rfl⟩).2.2

/-- C9 counterexample: a platform whose config file does not exist.  The
claim says the backup step is skipped but the sync still proceeds to
load, merge and save; the code instead reports `config_path = None`,
records a "config path not found" error with a zero count, and performs
no operation at all for that platform — the trace is empty. -/
theorem sync_skips_platform_when_config_file_absent :
    sync_all
      ⟨fun _ => true, fun _ => true, fun _ => none, fun _ => "", fun _ => ""⟩
      ⟨"1.0", []⟩
      [⟨"Claude Code", false, .ok (), .ok [], .ok ()⟩] =
    ({ platforms_synced := 0, platforms_total := 1
       servers_synced := [("Claude Code", 0)]
       errors := ["Claude Code: config path not found (platform not installed?)"] },
     []) := rfl

theorem syncLoop_absent_error (managed : List (String × MCPServer))
    (l : List PlatformModel) :
    ∀ (r : SyncReport) (p : PlatformModel), p ∈ l →
      p.configPathExists = false →
      (p.name ++ ": config path not found (platform not installed?)")
        ∈ (syncLoop managed r l).1.errors := by
  induction l with
  | nil => intro r p hp _; cases hp
  | cons q rest ih =>
      intro r p hp hnp
      rcases List.mem_cons.mp hp with h | h
      · subst h
        exact syncLoop_keeps_errors managed rest _ _
          (syncPlatform_skip_error managed r p hnp)
      · exact ih _ p h hnp

/-- C9 as amended: during `sync_all`'s per-adapter step, an adapter whose
config file does not exist reports no config path; the platform is then
skipped entirely — a "config path not found" error is recorded and no
backup, load, merge or save happens for it (every trace operation belongs
to a platform whose config path resolves). -/
theorem sync_all_absent_config_path_skips
    (sys : SysEnv) (config : Config) (platforms : List PlatformModel)
    (hvalid : validationErrors sys config = []) :
    (∀ p ∈ platforms, p.configPathExists = false →
      (p.name ++ ": config path not found (platform not installed?)")
        ∈ (sync_all sys config platforms).1.errors) ∧
    (∀ op ∈ (sync_all sys config platforms).2,
      ∃ q ∈ platforms, q.configPathExists = true ∧
        syncOpPlatform op = q.name) := by
  unfold sync_all
  rw [if_pos hvalid]
  constructor
  · intro p hp hnp
    exact syncLoop_absent_error _ platforms _ p hp hnp
  · intro op hop
    exact syncLoop_trace_from_present_paths _ platforms _ op hop

/-- Witness for `sync_all_absent_config_path_skips` at the counterexample
scenario. -/
theorem sync_all_absent_config_path_skips_witness :
    ("Claude Code: config path not found (platform not installed?)")
      ∈ (sync_all
          ⟨fun _ => true, fun _ => true, fun _ => none, fun _ => "", fun _ => ""⟩
          ⟨"1.0", []⟩
          [⟨"Claude Code", false, .ok (), .ok [], .ok ()⟩]).1.errors :=
  (sync_all_absent_config_path_skips
      ⟨fun _ => true, fun _ => true, fun _ => none, fun _ => "", fun _ => ""⟩
      ⟨"1.0", []⟩
      [⟨"Claude Code", false, .ok (), .ok [], .ok ()⟩] rfl).1
    ⟨"Claude Code", false, .ok (), .ok [], .ok ()⟩
    (List.mem_singleton.mpr rfl) rfl

/-! ## Stdio health check (`utils/validation.py`,
`health_check_stdio_server`) -/

/-- A process-management call performed by the `finally` cleanup. -/
inductive ProcAction where
  | terminate
  | wait
  | kill
  deriving Repr, DecidableEq

/-- The `finally` block's cleanup once a process exists: graceful
`terminate()` plus `wait(timeout=1)`; if the wait times out, `kill()`
plus an unbounded `wait()`. -/
def cleanupActions (exitsOnTerminate : Bool) : List ProcAction :=
  if exitsOnTerminate then [.terminate, .wait]
  else [.terminate, .wait, .kill, .wait]

/-- What `process.communicate` did: produced output, raised
`TimeoutExpired`, or raised an `OSError`. -/
inductive CommOutcome where
  | output (stdout stderr : String)
  | timedOut
  | osError (msg : String)
  deriving Repr

/-- What `subprocess.Popen` did: spawned a process (with its later
`communicate` outcome and whether it exits within the grace period of a
`terminate`), or raised before any process existed. -/
inductive SpawnOutcome where
  | spawned (comm : CommOutcome) (exitsOnTerminate : Bool)
  | fileNotFound
  | permissionError
  | osError (msg : String)
  deriving Repr

/-- Python's `str.strip()` whitespace class. -/
def isPySpace (c : Char) : Bool :=
  c = ' ' || c = '\t' || c = '\n' || c = '\r' || c = '\x0b' || c = '\x0c'

/-- Python's `str.strip()`. -/
def pyStrip (s : String) : String :=
  String.mk (((s.data.dropWhile isPySpace).reverse.dropWhile isPySpace).reverse)

/-- The `[:200]` truncation Python applies to diagnostic text. -/
def pyTake200 (s : String) : String := String.mk (s.data.take 200)

/-- The response-line scan: the first line that, stripped, starts with an
open brace (tolerating preceding non-JSON log lines). -/
def findJsonLine : List String → Option String
  | [] => none
  | l :: ls =>
      let t := pyStrip l
      if t.data.head? = some '\x7b' then some t else findJsonLine ls

/-- `result.serverInfo` field extraction with the `"unknown"` default,
rendered as Python's f-string would. -/
def serverInfoField (si : List (String × JSON)) (key : String) : String :=
  match jlookup si key with
  | some v => pyStr v
  | none => "unknown"

/-- The JSON-RPC response validation of `health_check_stdio_server`
(lines 318-339), in source order: missing `jsonrpc` field; `jsonrpc`
value not `"2.0"`; an `error` member (reported with its `message`, or
`str(error)` when absent); a `result` member (success, with
`serverInfo.name` / `serverInfo.version` defaulting to `"unknown"`);
else the missing-result-or-error failure.  An `Except.error` is an
uncaught `AttributeError` — `.get` on a non-dict value — which the
source's `except` clauses do not catch. -/
def validateRpcResponse (serverName : String)
    (response : List (String × JSON)) : Except String (Bool × String) :=
  match jlookup response "jsonrpc" with
  | none =>
      .ok (false, "Server '" ++ serverName ++ "' response missing 'jsonrpc' field")
  | some v =>
      if jIsStr v "2.0" = false then
        .ok (false, "Server '" ++ serverName ++
          "' has invalid JSON-RPC version: " ++ pyStr v)
      else
        match jlookup response "error" with
        | some (JSON.obj efields) =>
            let errMsg :=
              match jlookup efields "message" with
              | some m => pyStr m
              | none => pyStr (JSON.obj efields)
            .ok (false, "Server '" ++ serverName ++ "' returned error: " ++ errMsg)
        | some e =>
            .error ("AttributeError: 'get' on a non-dict error value " ++ pyStr e)
        | none =>
            match jlookup response "result" with
            | some (JSON.obj rfields) =>
                (match (jlookup rfields "serverInfo").getD (JSON.obj []) with
                 | JSON.obj sif =>
                     .ok (true, "Server '" ++ serverName ++
                       "' healthy (server: " ++ serverInfoField sif "name" ++
                       " v" ++ serverInfoField sif "version" ++ ")")
                 | si =>
                     .error ("AttributeError: 'get' on a non-dict serverInfo value "
                       ++ pyStr si))
            | some res =>
                .error ("AttributeError: 'get' on a non-dict result value "
                  ++ pyStr res)
            | none =>
                .ok (false, "Server '" ++ serverName ++
                  "' response missing 'result' or 'error' field")

/-- The response-processing of `health_check_stdio_server` once
`communicate` returned output (lines 294-339): empty-output failures
with captured stderr, the JSON-line scan, `json.loads` (given as
`parseJson`, whose `Except.error` carries the `JSONDecodeError` text)
and the JSON-RPC validation.  A line that starts with a brace and
parses can only be a JSON object, so the non-object arm is
unreachable. -/
def processOutput (parseJson : String → Except String JSON)
    (serverName : String) (stdout stderr : String) :
    Except String (Bool × String) :=
  let stdout_str := pyStrip stdout
  if stdout_str = "" then
    let stderr_str := pyStrip stderr
    if ¬ stderr_str = "" then
      .ok (false, "Server '" ++ serverName ++
        "' returned no response. stderr: " ++ pyTake200 stderr_str)
    else
      .ok (false, "Server '" ++ serverName ++ "' returned no response")
  else
    match findJsonLine (stdout_str.splitOn "
") with
    | none =>
        .ok (false, "Server '" ++ serverName ++
          "' returned non-JSON response: " ++ pyTake200 stdout_str)
    | some line =>
        match parseJson line with
        | .error e =>
            .ok (false, "Server '" ++ serverName ++
              "' returned invalid JSON: " ++ e)
        | .ok (JSON.obj fields) => validateRpcResponse serverName fields
        | .ok _ =>
            .error "unreachable: a JSON text starting with a brace parses to an object"

/-- `health_check_stdio_server(server, timeout)`.  `parseJson` is
Python's `json.loads` on one line; `spawn` is what the machine did.
Returns the (success, message) result — `Except.error` when the function
itself raises — paired with the process-management calls the `finally`
block performed.  Early returns before `Popen` leave the action list
empty: no process ever existed. -/
def health_check_stdio_server (sys : SysEnv)
    (parseJson : String → Except String JSON) (server : MCPServer)
    (timeoutArg : Option Nat) (spawn : SpawnOutcome) :
    Except String (Bool × String) × List ProcAction :=
  let timeout := timeoutArg.getD 5
  if ¬ server.type = "stdio" then
    (.ok (false, "Server '" ++ server.name ++ "' is not a stdio server (type: "
       ++ server.type ++ ")"), [])
  else if ¬ strTruthy server.command = true then
    (.ok (false, "Server '" ++ server.name ++ "' has no command specified"), [])
  else
    match validate_command_exists sys (server.command.getD "") with
    | some cmdErr =>
        (.ok (false, "Server '" ++ server.name ++ "': " ++ cmdErr.message), [])
    | none =>
        match spawn with
        | .fileNotFound =>
            (.ok (false, "Server '" ++ server.name ++ "': command not found: "
               ++ server.command.getD ""), [])
        | .permissionError =>
            (.ok (false, "Server '" ++ server.name ++
               "': permission denied executing: " ++ server.command.getD ""), [])
        | .osError m =>
            (.ok (false, "Server '" ++ server.name ++ "': OS error: " ++ m), [])
        | .spawned comm exitsOnTerm =>
            (match comm with
             | .timedOut =>
                 .ok (false, "Server '" ++ server.name ++ "' timed out after "
                   ++ toString timeout ++ " seconds")
             | .osError m =>
                 .ok (false, "Server '" ++ server.name ++ "': OS error: " ++ m)
             | .output stdout stderr =>
                 processOutput parseJson server.name stdout stderr,
             cleanupActions exitsOnTerm)

/-- C7: once the stdio health check has spawned a process, the `finally`
cleanup runs on every exit path — graceful terminate and wait, then
force-kill when the process does not exit within the grace period — and
a `communicate` timeout yields a failure whose message is exactly
`"Server '{name}' timed out after {N} seconds"` for the configured
timeout `N` (defaulting to 5). -/
theorem health_check_timeout_message_and_cleanup (sys : SysEnv)
    (parseJson : String → Except String JSON) (server : MCPServer)
    (timeoutArg : Option Nat) (spawn : SpawnOutcome)
    (comm : CommOutcome) (exitsOnTerm : Bool)
    (htype : server.type = "stdio")
    (hcmd : strTruthy server.command = true)
    (hwhich : sys.whichFound (server.command.getD "") = true)
    (hspawn : spawn = .spawned comm exitsOnTerm) :
    ((health_check_stdio_server sys parseJson server timeoutArg spawn).2 =
      cleanupActions exitsOnTerm) ∧
    (exitsOnTerm = false →
      ProcAction.kill ∈
        (health_check_stdio_server sys parseJson server timeoutArg spawn).2) ∧
    (comm = .timedOut →
      (health_check_stdio_server sys parseJson server timeoutArg spawn).1 =
        .ok (false, "Server '" ++ server.name ++ "' timed out after "
          ++ toString (timeoutArg.getD 5) ++ " seconds")) := by
  subst hspawn
  have hvce : validate_command_exists sys (server.command.getD "") = none := by
    unfold validate_command_exists
    rw [if_pos hwhich]
  have hgrind :
      health_check_stdio_server sys parseJson server timeoutArg
          (.spawned comm exitsOnTerm) =
        ((match comm with
          | .timedOut =>
              .ok (false, "Server '" ++ server.name ++ "' timed out after "
                ++ toString (timeoutArg.getD 5) ++ " seconds")
          | .osError m =>
              .ok (false, "Server '" ++ server.name ++ "': OS error: " ++ m)
          | .output stdout stderr =>
              processOutput parseJson server.name stdout stderr),
         cleanupActions exitsOnTerm) := by
    unfold health_check_stdio_server
    rw [if_neg (by simp [htype]), if_neg (by simp [hcmd])]
    dsimp only
    rw [hvce]
  refine ⟨?_, ?_, ?_⟩
  · rw [hgrind]
  · intro hexit
    rw [hgrind, hexit]
    show ProcAction.kill ∈ cleanupActions false
    decide
  · intro hto
    subst hto
    rw [hgrind]

/-- Witness for `health_check_timeout_message_and_cleanup`: a server
whose process never answers and survives `terminate`; default timeout. -/
theorem health_check_timeout_message_and_cleanup_witness :
    ((health_check_stdio_server
        ⟨fun _ => true, fun _ => true, fun _ => none, fun _ => "", fun _ => ""⟩
        (fun _ => .error "no document")
        { name := "sleepy", type := "stdio", command := some "sleep" }
        none (.spawned .timedOut false)).2 =
      cleanupActions false) ∧
    ((health_check_stdio_server
        ⟨fun _ => true, fun _ => true, fun _ => none, fun _ => "", fun _ => ""⟩
        (fun _ => .error "no document")
        { name := "sleepy", type := "stdio", command := some "sleep" }
        none (.spawned .timedOut false)).1 =
      .ok (false, "Server 'sleepy' timed out after 5 seconds")) := by
  have h := health_check_timeout_message_and_cleanup
    ⟨fun _ => true, fun _ => true, fun _ => none, fun _ => "", fun _ => ""⟩
    (fun _ => .error "no document")
    { name := "sleepy", type := "stdio", command := some "sleep" }
    none (.spawned .timedOut false) .timedOut false rfl rfl rfl rfl
  exact ⟨h.1, h.2.2 rfl⟩

theorem jlookup_nil (k : String) : jlookup [] k = none := rfl

/-- C8: the JSON-RPC response validation order of the health check.  A
response without `jsonrpc` fails as missing that field; one whose
`jsonrpc` value is not the string `"2.0"` fails as an invalid version
(rendering the value); one with an `error` object fails with that
object's `message`; one with neither `error` nor `result` fails with the
missing-result-or-error message; one with a `result` object succeeds,
extracting `serverInfo.name` / `serverInfo.version` into the success
message, each defaulting to `"unknown"` when absent. -/
theorem rpc_response_validation_order (name : String)
    (r : List (String × JSON)) :
    (jlookup r "jsonrpc" = none →
      validateRpcResponse name r =
        .ok (false, "Server '" ++ name ++ "' response missing 'jsonrpc' field")) ∧
    (∀ v, jlookup r "jsonrpc" = some v → jIsStr v "2.0" = false →
      validateRpcResponse name r =
        .ok (false, "Server '" ++ name ++ "' has invalid JSON-RPC version: "
          ++ pyStr v)) ∧
    (∀ e m, jlookup r "jsonrpc" = some (JSON.str "2.0") →
      jlookup r "error" = some (JSON.obj e) →
      jlookup e "message" = some m →
      validateRpcResponse name r =
        .ok (false, "Server '" ++ name ++ "' returned error: " ++ pyStr m)) ∧
    (jlookup r "jsonrpc" = some (JSON.str "2.0") →
      jlookup r "error" = none → jlookup r "result" = none →
      validateRpcResponse name r =
        .ok (false, "Server '" ++ name ++
          "' response missing 'result' or 'error' field")) ∧
    (∀ res, jlookup r "jsonrpc" = some (JSON.str "2.0") →
      jlookup r "error" = none → jlookup r "result" = some (JSON.obj res) →
      jlookup res "serverInfo" = none →
      validateRpcResponse name r =
        .ok (true, "Server '" ++ name ++ "' healthy (server: "
          ++ "unknown" ++ " v" ++ "unknown" ++ ")")) ∧
    (∀ res si, jlookup r "jsonrpc" = some (JSON.str "2.0") →
      jlookup r "error" = none → jlookup r "result" = some (JSON.obj res) →
      jlookup res "serverInfo" = some (JSON.obj si) →
      validateRpcResponse name r =
        .ok (true, "Server '" ++ name ++ "' healthy (server: "
          ++ serverInfoField si "name" ++ " v"
          ++ serverInfoField si "version" ++ ")")) ∧
    (∀ si key, jlookup si key = none → serverInfoField si key = "unknown") := by
  refine ⟨?_, ?_, ?_, ?_, ?_, ?_, ?_⟩
  · intro hj
    simp [validateRpcResponse, hj]
  · intro v hj hv
    simp [validateRpcResponse, hj, hv]
  · intro e m hj herr hm
    simp [validateRpcResponse, hj, herr, hm, jIsStr]
  · intro hj herr hres
    simp [validateRpcResponse, hj, herr, hres, jIsStr]
  · intro res hj herr hres hsi
    simp [validateRpcResponse, hj, herr, hres, hsi, jIsStr, serverInfoField,
      jlookup_nil]
  · intro res si hj herr hres hsi
    simp [validateRpcResponse, hj, herr, hres, hsi, jIsStr]
  · intro si key hk
    simp [serverInfoField, hk]

/-- Witness for `rpc_response_validation_order`: a concrete error
response with a `message`. -/
theorem rpc_response_validation_order_witness :
    validateRpcResponse "s"
      [("jsonrpc", JSON.str "2.0"),
       ("error", JSON.obj [("message", JSON.str "boom")])] =
      .ok (false, "Server 's' returned error: boom") :=
  (rpc_response_validation_order "s"
      [("jsonrpc", JSON.str "2.0"),
       ("error", JSON.obj [("message", JSON.str "boom")])]).2.2.1
    [("message", JSON.str "boom")] (JSON.str "boom") rfl rfl rfl
